import Mathlib

/-!
Shallow embedding of the agentic sampling loop of `computer_use_demo/loop.py`
and of the Venice chat-completion adapter of
`computer_use_demo/venice_adapter.py`, together with theorems settling the
spec claims about them.

Modelling conventions:
- Python dict-based Anthropic content blocks become the inductive `Fragment`;
  the blocks allowed inside a `tool_result`'s `content` list become
  `InnerBlock` (only text and image blocks are ever placed there by the code).
- A `tool_result`'s `content` may be either a plain string (error branch of
  `_make_api_tool_result`) or a list of blocks, mirrored by `TRContent`.
- A message's `content` may be a plain string or a list of blocks
  (`BetaMessageParam` allows both), mirrored by `MsgContent`.
- Python integers are `Int` (so the pruner's possibly negative removal
  counter behaves exactly as in Python; Python `%` with a positive modulus
  agrees with Lean `Int.emod`).
- Python truthiness of optional strings (`if result.error:` etc.) is the
  `truthy` predicate: `None` and the empty string are falsy.
- The side-effecting callbacks (`output_callback`, `tool_output_callback`,
  `api_response_callback`) and logging do not influence data flow or control
  flow and are omitted.
-/

namespace ComputerUse

/-- A block allowed inside a `tool_result` content list: `BetaTextBlockParam`
or `BetaImageBlockParam` (the image is kept as its base64 data string). -/
inductive InnerBlock where
  | text (text : String)
  | image (data : String)
deriving DecidableEq, Repr

/-- The `content` field of a `tool_result` block: either a plain string or a
list of text/image blocks. -/
inductive TRContent where
  | str (s : String)
  | blocks (blocks : List InnerBlock)
deriving DecidableEq, Repr

/-- A top-level Anthropic-style content block (`BetaContentBlockParam`). -/
inductive Fragment where
  | text (text : String)
  | image (data : String)
  | toolUse (id : String) (name : String) (input : String)
  | toolResult (toolUseId : String) (content : TRContent) (isError : Bool)
deriving DecidableEq, Repr

/-- Message roles used by the loop. -/
inductive Role where
  | user
  | assistant
deriving DecidableEq, Repr

/-- The `content` field of a `BetaMessageParam`: a plain string or a list of
content blocks. -/
inductive MsgContent where
  | str (s : String)
  | blocks (blocks : List Fragment)
deriving DecidableEq, Repr

/-- A conversation message (`BetaMessageParam`). -/
structure Message where
  role : Role
  content : MsgContent
deriving DecidableEq, Repr

/-- The fields of a tool collaborator `ToolResult` that `loop.py` reads
(`result.output`, `result.error`, `result.base64_image`, `result.system`);
each is an optional string. -/
structure ToolResult where
  output : Option String
  error : Option String
  base64Image : Option String
  system : Option String
deriving DecidableEq, Repr

/-- Python truthiness of an optional string: `None` and `""` are falsy. -/
def truthy : Option String → Bool
  | none => false
  | some s => s != ""

/-- `truncate_string` from `loop.py`: keep a string unchanged when its length
is at most `maxLength`, else cut it to its first `maxLength` characters and
append the truncation marker. In the source `maxLength` defaults to 4000. -/
def truncate_string (s : String) (maxLength : Nat) : String :=
  if s.length ≤ maxLength then s else s.take maxLength ++ "... [truncated]"

/-- `_maybe_prepend_system_tool_result` from `loop.py`: prepend the wrapped
`result.system` annotation when present, then truncate. -/
def _maybe_prepend_system_tool_result (result : ToolResult) (resultText : String) : String :=
  truncate_string
    (if truthy result.system then
      "<system>" ++ result.system.getD "" ++ "</system>\n" ++ resultText
     else resultText) 4000

/-- `_make_api_tool_result` from `loop.py`: convert a `ToolResult` into a
`tool_result` content block carrying the given `tool_use_id`. -/
def _make_api_tool_result (result : ToolResult) (toolUseId : String) : Fragment :=
  if truthy result.error then
    Fragment.toolResult toolUseId
      (TRContent.str (_maybe_prepend_system_tool_result result (result.error.getD ""))) true
  else
    Fragment.toolResult toolUseId
      (TRContent.blocks
        ((if truthy result.output then
            [InnerBlock.text (_maybe_prepend_system_tool_result result (result.output.getD ""))]
          else []) ++
         (if truthy result.base64Image then
            [InnerBlock.image (result.base64Image.getD "")]
          else [])))
      false

/-! ### History pruner: `_maybe_filter_to_n_most_recent_images` -/

/-- Recognizer for image blocks inside a `tool_result` content list. -/
def isImageBlock : InnerBlock → Bool
  | .image _ => true
  | .text _ => false

/-- Number of image blocks in a `tool_result` content list. -/
def countImagesInner (l : List InnerBlock) : Nat :=
  (l.filter isImageBlock).length

/-- Number of images contributed by one top-level content block to the
pruner's `total_images` count: only `tool_result` blocks whose content is a
list are considered. -/
def fragmentImages : Fragment → Nat
  | .toolResult _ (.blocks l) _ => countImagesInner l
  | _ => 0

/-- Number of images contributed by one message: only messages whose content
is a list contribute. -/
def messageImages : Message → Nat
  | ⟨_, .str _⟩ => 0
  | ⟨_, .blocks l⟩ => (l.map fragmentImages).sum

/-- The pruner's `total_images`: images inside `tool_result` blocks across
the whole history. -/
def totalImages (messages : List Message) : Nat :=
  (messages.map messageImages).sum

/-- One `tool_result` content list pass of the pruner: drop image blocks
while the removal counter is positive, keep everything else; returns the new
list and the remaining counter. -/
def filterInner : Int → List InnerBlock → List InnerBlock × Int
  | n, [] => ([], n)
  | n, .image d :: rest =>
      if 0 < n then filterInner (n - 1) rest
      else
        let p := filterInner n rest
        (.image d :: p.1, p.2)
  | n, .text t :: rest =>
      let p := filterInner n rest
      (.text t :: p.1, p.2)

/-- Apply the pruner to one top-level content block: only `tool_result`
blocks whose content is a list are rewritten. -/
def filterFragment : Int → Fragment → Fragment × Int
  | n, .toolResult id (.blocks l) e =>
      let p := filterInner n l
      (.toolResult id (.blocks p.1) e, p.2)
  | n, f => (f, n)

/-- Apply the pruner to the blocks of one message, threading the counter in
order (the Python code iterates the collected `tool_result` references in
exactly this chronological order). -/
def filterFragments : Int → List Fragment → List Fragment × Int
  | n, [] => ([], n)
  | n, f :: rest =>
      let p := filterFragment n f
      let q := filterFragments p.2 rest
      (p.1 :: q.1, q.2)

/-- Apply the pruner to one message: messages whose content is a plain
string hold no `tool_result` blocks and are untouched. -/
def filterMessage : Int → Message → Message × Int
  | n, ⟨role, .str s⟩ => (⟨role, .str s⟩, n)
  | n, ⟨role, .blocks l⟩ =>
      let p := filterFragments n l
      (⟨role, .blocks p.1⟩, p.2)

/-- Apply the pruner to the whole history in chronological order. -/
def filterMessages : Int → List Message → List Message × Int
  | n, [] => ([], n)
  | n, m :: rest =>
      let p := filterMessage n m
      let q := filterMessages p.2 rest
      (p.1 :: q.1, q.2)

/-- `_maybe_filter_to_n_most_recent_images` from `loop.py`: count the images
inside `tool_result` blocks, compute the removal count
`total - images_to_keep` rounded down to a multiple of
`min_removal_threshold` (which defaults to 10 in the source), and delete
that many images walking the history chronologically. `images_to_keep` is
`None` disables pruning. -/
def _maybe_filter_to_n_most_recent_images
    (messages : List Message) (imagesToKeep : Option Int)
    (minRemovalThreshold : Int) : List Message :=
  match imagesToKeep with
  | none => messages
  | some k =>
      let total : Int := totalImages messages
      let imagesToRemove0 : Int := total - k
      let imagesToRemove : Int := imagesToRemove0 - imagesToRemove0 % minRemovalThreshold
      (filterMessages imagesToRemove messages).1

/-! ### Image bookkeeping used to state the pruner claims -/

/-- The data strings of the image blocks of a `tool_result` content list, in
order. -/
def innerImagesData (l : List InnerBlock) : List String :=
  l.filterMap fun b => match b with | .image d => some d | .text _ => none

/-- The image data strings a top-level block contributes to the pruner. -/
def fragmentImagesData : Fragment → List String
  | .toolResult _ (.blocks l) _ => innerImagesData l
  | _ => []

/-- The image data strings of a list of top-level blocks, in order. -/
def fragListImagesData (l : List Fragment) : List String :=
  (l.map fragmentImagesData).flatten

/-- The image data strings of one message, in order. -/
def messageImagesData : Message → List String
  | ⟨_, .str _⟩ => []
  | ⟨_, .blocks l⟩ => fragListImagesData l

/-- All prunable image data strings of the history, in chronological order. -/
def historyImagesData (messages : List Message) : List String :=
  (messages.map messageImagesData).flatten

/-- Erase every image block inside `tool_result` contents of a content list
(used to state that the pruner changes nothing else). -/
def eraseInner (l : List InnerBlock) : List InnerBlock :=
  l.filter fun b => !(isImageBlock b)

/-- Erase the prunable images of one top-level block. -/
def eraseFragment : Fragment → Fragment
  | .toolResult id (.blocks l) e => .toolResult id (.blocks (eraseInner l)) e
  | f => f

/-- Erase the prunable images of one message. -/
def eraseMessage : Message → Message
  | ⟨r, .str s⟩ => ⟨r, .str s⟩
  | ⟨r, .blocks l⟩ => ⟨r, .blocks (l.map eraseFragment)⟩

/-- Erase the prunable images of the whole history: the part of the history
the pruner must keep intact. -/
def eraseHistoryImages (messages : List Message) : List Message :=
  messages.map eraseMessage

/-! ### The sampling loop of `loop.py` -/

/-- The `tool_use` ids of a content list, in order. -/
def requestIds (content : List Fragment) : List String :=
  content.filterMap fun f => match f with | .toolUse id _ _ => some id | _ => none

/-- The `tool_use_id`s of the `tool_result` blocks of a content list, in
order. -/
def resultIds (content : List Fragment) : List String :=
  content.filterMap fun f => match f with | .toolResult id _ _ => some id | _ => none

/-- Recognizer for `tool_result` blocks. -/
def isToolResultFrag : Fragment → Bool
  | .toolResult _ _ _ => true
  | _ => false

/-- Recognizer for `tool_use` blocks. -/
def isToolUseFrag : Fragment → Bool
  | .toolUse _ _ _ => true
  | _ => false

/-- The assistant message the loop appends for a provider reply. -/
def mkAssistantMessage (content : List Fragment) : Message :=
  ⟨Role.assistant, MsgContent.blocks content⟩

/-- The user message the loop appends to carry tool results. -/
def mkUserMessage (content : List Fragment) : Message :=
  ⟨Role.user, MsgContent.blocks content⟩

/-- The `tool_result_content` list one loop round builds: for every
`tool_use` block of the reply, in order, run the tool and convert its
outcome with `_make_api_tool_result` under the request id. `runTool` models
`tool_collection.run` as a function from tool name and input to a
`ToolResult`. -/
def roundToolResults (runTool : String → String → ToolResult) (reply : List Fragment) :
    List Fragment :=
  reply.filterMap fun f =>
    match f with
    | .toolUse id name input => some (_make_api_tool_result (runTool name input) id)
    | _ => none

/-- The loop's guard `if only_n_most_recent_images:` before pruning: Python
truthiness of an optional integer, so `None` and `0` both skip the pruner. -/
def pruneGuard (onlyNMostRecentImages : Option Int) (messages : List Message) : List Message :=
  match onlyNMostRecentImages with
  | none => messages
  | some n =>
      if n = 0 then messages
      else _maybe_filter_to_n_most_recent_images messages (some n) 10

/-- `sampling_loop` from `loop.py`, driven by the list of provider replies
it would receive in successive rounds (one reply per provider call). Each
round prunes under the guard, appends the reply as an assistant message,
runs every requested tool, and either returns the history (no tool results)
or appends the user message holding the results and recurs. `none` means
the scripted replies ran out while the loop still wanted to call the
provider. -/
def sampling_loop (runTool : String → String → ToolResult)
    (onlyNMostRecentImages : Option Int) :
    List (List Fragment) → List Message → Option (List Message)
  | [], _ => none
  | reply :: rest, messages =>
      let messages1 := pruneGuard onlyNMostRecentImages messages
      let messages2 := messages1 ++ [mkAssistantMessage reply]
      let toolResultContent := roundToolResults runTool reply
      if toolResultContent = [] then some messages2
      else
        sampling_loop runTool onlyNMostRecentImages rest
          (messages2 ++ [mkUserMessage toolResultContent])

/-! ### The Venice adapter of `venice_adapter.py` -/

/-- One wire message of the Venice (OpenAI-style) chat-completion schema. -/
structure VeniceMessage where
  role : String
  content : String
deriving DecidableEq, Repr

/-- The wire role string of a history message. -/
def roleString : Role → String
  | .user => "user"
  | .assistant => "assistant"

/-- `VeniceClient._extract_text_from_content`: a content list is flattened
by joining the texts of its `text` blocks; plain string content falls back
to the string itself. -/
def _extract_text_from_content : MsgContent → String
  | .str s => s
  | .blocks l =>
      (l.filterMap fun b => match b with | .text t => some t | _ => none).foldr
        (fun a acc => a ++ acc) ""

/-- `VeniceClient._convert_messages`: prepend the system prompt as a leading
system message when it is truthy (nonempty), then map every history message
to one wire message of the same role with its flattened text. -/
def _convert_messages (messages : List Message) (system : String) : List VeniceMessage :=
  (if system = "" then [] else [⟨"system", system⟩]) ++
    messages.map fun m => ⟨roleString m.role, _extract_text_from_content m.content⟩

/-- The request payload `VeniceClient.create` posts. -/
structure RequestPayload where
  model : String
  messages : List VeniceMessage
  maxTokens : Nat
  includeVeniceSystemPrompt : Bool
deriving DecidableEq, Repr

/-- Build the Venice request payload as `VeniceClient.create` does. -/
def buildRequestPayload (model : String) (maxTokens : Nat)
    (messages : List Message) (system : String) : RequestPayload :=
  ⟨model, _convert_messages messages system, maxTokens, false⟩

/-- The `message` object of a Venice response choice; `none` fields model
missing dict keys. -/
structure ChoiceMsg where
  content : Option String
deriving DecidableEq, Repr

/-- One entry of the `choices` array of a Venice response. -/
structure Choice where
  message : Option ChoiceMsg
deriving DecidableEq, Repr

/-- The `usage` object of a Venice response. -/
structure UsageData where
  promptTokens : Option Nat
  completionTokens : Option Nat
deriving DecidableEq, Repr

/-- A parsed Venice JSON response body; every field is optional because the
code reads them with `dict.get` defaults. The `id` field is carried to state
that the adapter never reuses the backend id. -/
structure VenicePayload where
  id : Option String
  choices : Option (List Choice)
  usage : Option UsageData
deriving DecidableEq, Repr

/-- The usage numbers of the `BetaMessage` the adapter constructs. -/
structure BetaUsageModel where
  inputTokens : Nat
  outputTokens : Nat
deriving DecidableEq, Repr

/-- The `BetaMessage` the adapter constructs from a Venice response. -/
structure BetaMessageModel where
  id : String
  type : String
  role : String
  content : List Fragment
  model : String
  usage : BetaUsageModel
  stopReason : Option String
deriving DecidableEq, Repr

/-- The Python exceptions the adapter can raise: the wrapped
`RuntimeError` (its `ProviderError`), and the unwrapped `JSONDecodeError`
and `IndexError` that escape the `try` block. -/
inductive PyExc where
  | runtimeError (msg : String)
  | jsonDecodeError
  | indexError
deriving DecidableEq, Repr

/-- Whether an exception is the adapter's wrapped provider error. -/
def isProviderError : PyExc → Bool
  | .runtimeError _ => true
  | _ => false

/-- The expression
`venice_response.get("choices", [{}])[0].get("message", {}).get("content", "")`:
a missing `choices` key defaults to a one-element list of an empty dict, but
a present, empty `choices` list makes the `[0]` index raise `IndexError`. -/
def assistantContentOf (p : VenicePayload) : Except PyExc String :=
  match p.choices.getD [⟨none⟩] with
  | [] => Except.error PyExc.indexError
  | c :: _ => Except.ok ((c.message.getD ⟨none⟩).content.getD "")

/-- The usage block `_convert_response` builds from the response. -/
def usageOf (p : VenicePayload) : BetaUsageModel :=
  let u := p.usage.getD ⟨none, none⟩
  ⟨u.promptTokens.getD 0, u.completionTokens.getD 0⟩

/-- `VeniceClient._convert_response`: build the Anthropic-style message with
a freshly generated id (`uuid.uuid4()`, modelled by the `freshId`
parameter), role `assistant`, a single text block holding the extracted
content, and the default stop reason. -/
def _convert_response (p : VenicePayload) (freshId : String) (model : String) :
    Except PyExc BetaMessageModel :=
  match assistantContentOf p with
  | .error e => .error e
  | .ok s =>
      .ok ⟨freshId, "message", "assistant", [Fragment.text s], model, usageOf p,
        some "end_turn"⟩

/-- What the HTTP layer handed back to `VeniceClient.create`: a
`requests.RequestException` during the post, or a response with a status
code and a body (`none` models a body that is not valid JSON, which makes
`resp.json()` raise). -/
inductive NetResult where
  | netFailure (msg : String)
  | httpResponse (status : Nat) (body : Option VenicePayload)
deriving DecidableEq, Repr

/-- `requests.Response.raise_for_status`: raises exactly for 4xx and 5xx
status codes. -/
def raise_for_status (status : Nat) : Option String :=
  if 400 ≤ status ∧ status < 600 then some ("HTTP error " ++ toString status)
  else none

/-- `VeniceClient.create` error flow: a `RequestException` from the post or
from `raise_for_status` is caught and re-raised as
`RuntimeError("Venice API request failed: ...")`; `resp.json()` sits outside
the `try` block, so an unparseable body raises an unwrapped decode error;
`_convert_response` may raise an unwrapped `IndexError`. -/
def create (net : NetResult) (freshId : String) (model : String) :
    Except PyExc BetaMessageModel :=
  match net with
  | .netFailure m =>
      .error (.runtimeError ("Venice API request failed: " ++ m))
  | .httpResponse status body =>
      match raise_for_status status with
      | some m => .error (.runtimeError ("Venice API request failed: " ++ m))
      | none =>
          match body with
          | none => .error PyExc.jsonDecodeError
          | some p => _convert_response p freshId model

/-! ### Support definitions for stating and witnessing the claims -/

/-- The pruner's removal count: `total - images_to_keep` rounded down to a
multiple of `min_removal_chunk` (Lean `Int.emod` agrees with Python `%` for
a positive modulus, also on negative left operands). -/
def excessImages (total k c : Int) : Int :=
  (total - k) - (total - k) % c

/-- A tool runner whose every invocation succeeds with output `ok`. -/
def rtOkay : String → String → ToolResult :=
  fun _ _ => ⟨some "ok", none, none, none⟩

/-- A tool runner whose every invocation fails with the error text
`display not found`. -/
def rtFailing : String → String → ToolResult :=
  fun _ _ => ⟨none, some "display not found", none, none⟩

/-- A one-message history whose single `tool_result` holds three images. -/
def threeImageHistory : List Message :=
  [⟨Role.user, MsgContent.blocks
    [Fragment.toolResult "t1" (TRContent.blocks
      [InnerBlock.image "i1", InnerBlock.image "i2", InnerBlock.image "i3"]) false]⟩]

/-- A 5000-character string used to witness the truncation claim. -/
def fiveThousandChars : String :=
  String.mk (List.replicate 5000 (Char.ofNat 97))

/-- A message holding one `tool_result` with a single image, used for the
25-image pruning scenario of the spec. -/
def oneImageMessage : Message :=
  ⟨Role.user, MsgContent.blocks
    [Fragment.toolResult "t" (TRContent.blocks [InnerBlock.image "img"]) false]⟩

/-! ### Pruner lemmas: counters, image counts, image data, frame -/

lemma countImagesInner_cons_image (d : String) (rest : List InnerBlock) :
    countImagesInner (InnerBlock.image d :: rest) = countImagesInner rest + 1 := by
  simp [countImagesInner, List.filter_cons, isImageBlock]

lemma countImagesInner_cons_text (t : String) (rest : List InnerBlock) :
    countImagesInner (InnerBlock.text t :: rest) = countImagesInner rest := by
  simp [countImagesInner, List.filter_cons, isImageBlock]

lemma filterInner_snd (n : Int) (l : List InnerBlock) :
    (filterInner n l).2 = n - ((min n.toNat (countImagesInner l) : Nat) : Int) := by
  induction l generalizing n with
  | nil => simp [filterInner, countImagesInner]
  | cons b rest ih =>
    cases b with
    | text t =>
      simp only [filterInner]
      rw [countImagesInner_cons_text, ih n]
    | image d =>
      rw [countImagesInner_cons_image]
      by_cases h : 0 < n
      · simp only [filterInner, if_pos h]
        rw [ih (n - 1)]
        omega
      · simp only [filterInner, if_neg h]
        rw [ih n]
        omega

lemma innerImagesData_cons_image (d : String) (rest : List InnerBlock) :
    innerImagesData (InnerBlock.image d :: rest) = d :: innerImagesData rest := rfl

lemma innerImagesData_cons_text (t : String) (rest : List InnerBlock) :
    innerImagesData (InnerBlock.text t :: rest) = innerImagesData rest := rfl

lemma filterInner_images (n : Int) (l : List InnerBlock) :
    innerImagesData (filterInner n l).1 = (innerImagesData l).drop n.toNat := by
  induction l generalizing n with
  | nil => simp [filterInner, innerImagesData]
  | cons b rest ih =>
    cases b with
    | text t =>
      simp only [filterInner, innerImagesData_cons_text]
      exact ih n
    | image d =>
      by_cases h : 0 < n
      · simp only [filterInner, if_pos h]
        have h1 : n.toNat = (n - 1).toNat + 1 := by omega
        rw [ih (n - 1), innerImagesData_cons_image, h1, List.drop_succ_cons]
      · simp only [filterInner, if_neg h]
        have h0 : n.toNat = 0 := by omega
        rw [innerImagesData_cons_image, innerImagesData_cons_image, h0, List.drop_zero]
        have ih2 := ih n
        rw [h0, List.drop_zero] at ih2
        rw [ih2]

lemma filterInner_erase (n : Int) (l : List InnerBlock) :
    eraseInner (filterInner n l).1 = eraseInner l := by
  induction l generalizing n with
  | nil => simp [filterInner]
  | cons b rest ih =>
    cases b with
    | text t =>
      simp only [filterInner]
      simp [eraseInner, List.filter_cons, isImageBlock]
      exact ih n
    | image d =>
      by_cases h : 0 < n
      · simp only [filterInner, if_pos h]
        rw [ih (n - 1)]
        simp [eraseInner, List.filter_cons, isImageBlock]
      · simp only [filterInner, if_neg h]
        simp [eraseInner, List.filter_cons, isImageBlock]
        exact ih n

lemma filterInner_id_of_nonpos (n : Int) (l : List InnerBlock) (h : n ≤ 0) :
    filterInner n l = (l, n) := by
  induction l with
  | nil => simp [filterInner]
  | cons b rest ih =>
    cases b with
    | text t => simp [filterInner, ih]
    | image d =>
      have h1 : ¬ 0 < n := by omega
      simp [filterInner, if_neg h1, ih]

lemma countImagesInner_eq_length (l : List InnerBlock) :
    countImagesInner l = (innerImagesData l).length := by
  induction l with
  | nil => rfl
  | cons b rest ih =>
    cases b with
    | text t => rw [countImagesInner_cons_text, innerImagesData_cons_text]; exact ih
    | image d => rw [countImagesInner_cons_image, innerImagesData_cons_image]; simp [ih]

lemma filterFragment_snd (n : Int) (f : Fragment) :
    (filterFragment n f).2 = n - ((min n.toNat (fragmentImages f) : Nat) : Int) := by
  cases f with
  | toolResult id c e =>
    cases c with
    | str s => simp [filterFragment, fragmentImages]
    | blocks l =>
      simp only [filterFragment, fragmentImages]
      exact filterInner_snd n l
  | text t => simp [filterFragment, fragmentImages]
  | image d => simp [filterFragment, fragmentImages]
  | toolUse i nm inp => simp [filterFragment, fragmentImages]

lemma fragmentImages_eq_length (f : Fragment) :
    fragmentImages f = (fragmentImagesData f).length := by
  cases f with
  | toolResult id c e =>
    cases c with
    | str s => rfl
    | blocks l => exact countImagesInner_eq_length l
  | text t => rfl
  | image d => rfl
  | toolUse i nm inp => rfl

lemma filterFragment_images (n : Int) (f : Fragment) :
    fragmentImagesData (filterFragment n f).1 = (fragmentImagesData f).drop n.toNat := by
  cases f with
  | toolResult id c e =>
    cases c with
    | str s => simp [filterFragment, fragmentImagesData]
    | blocks l =>
      simp only [filterFragment, fragmentImagesData]
      exact filterInner_images n l
  | text t => simp [filterFragment, fragmentImagesData]
  | image d => simp [filterFragment, fragmentImagesData]
  | toolUse i nm inp => simp [filterFragment, fragmentImagesData]

lemma filterFragment_erase (n : Int) (f : Fragment) :
    eraseFragment (filterFragment n f).1 = eraseFragment f := by
  cases f with
  | toolResult id c e =>
    cases c with
    | str s => rfl
    | blocks l =>
      simp only [filterFragment, eraseFragment]
      rw [filterInner_erase]
  | text t => rfl
  | image d => rfl
  | toolUse i nm inp => rfl

lemma filterFragment_id_of_nonpos (n : Int) (f : Fragment) (h : n ≤ 0) :
    filterFragment n f = (f, n) := by
  cases f with
  | toolResult id c e =>
    cases c with
    | str s => rfl
    | blocks l => simp [filterFragment, filterInner_id_of_nonpos n l h]
  | text t => rfl
  | image d => rfl
  | toolUse i nm inp => rfl

lemma fragListImagesData_cons (f : Fragment) (l : List Fragment) :
    fragListImagesData (f :: l) = fragmentImagesData f ++ fragListImagesData l := by
  simp [fragListImagesData]

lemma fragListSum_eq_length (l : List Fragment) :
    (l.map fragmentImages).sum = (fragListImagesData l).length := by
  induction l with
  | nil => rfl
  | cons f rest ih =>
    rw [List.map_cons, List.sum_cons, fragListImagesData_cons, List.length_append,
      fragmentImages_eq_length, ih]

lemma filterFragments_snd (n : Int) (l : List Fragment) :
    (filterFragments n l).2 = n - ((min n.toNat ((l.map fragmentImages).sum) : Nat) : Int) := by
  induction l generalizing n with
  | nil => simp [filterFragments]
  | cons f rest ih =>
    simp only [filterFragments, List.map_cons, List.sum_cons]
    rw [ih, filterFragment_snd]
    omega

lemma filterFragments_images (n : Int) (l : List Fragment) :
    fragListImagesData (filterFragments n l).1 = (fragListImagesData l).drop n.toNat := by
  induction l generalizing n with
  | nil => simp [filterFragments, fragListImagesData]
  | cons f rest ih =>
    simp only [filterFragments, fragListImagesData_cons]
    rw [ih, filterFragment_images, List.drop_append_eq_append_drop]
    have hsnd := filterFragment_snd n f
    have hlen := fragmentImages_eq_length f
    have : (filterFragment n f).2.toNat = n.toNat - (fragmentImagesData f).length := by
      omega
    rw [this]

lemma filterFragments_erase (n : Int) (l : List Fragment) :
    (filterFragments n l).1.map eraseFragment = l.map eraseFragment := by
  induction l generalizing n with
  | nil => rfl
  | cons f rest ih =>
    simp only [filterFragments, List.map_cons]
    rw [ih, filterFragment_erase]

lemma filterFragments_id_of_nonpos (n : Int) (l : List Fragment) (h : n ≤ 0) :
    filterFragments n l = (l, n) := by
  induction l with
  | nil => rfl
  | cons f rest ih => simp [filterFragments, filterFragment_id_of_nonpos n f h, ih]

lemma filterMessage_snd (n : Int) (m : Message) :
    (filterMessage n m).2 = n - ((min n.toNat (messageImages m) : Nat) : Int) := by
  obtain ⟨r, c⟩ := m
  cases c with
  | str s => simp [filterMessage, messageImages]
  | blocks l =>
    simp only [filterMessage, messageImages]
    exact filterFragments_snd n l

lemma messageImages_eq_length (m : Message) :
    messageImages m = (messageImagesData m).length := by
  obtain ⟨r, c⟩ := m
  cases c with
  | str s => rfl
  | blocks l => exact fragListSum_eq_length l

lemma filterMessage_images (n : Int) (m : Message) :
    messageImagesData (filterMessage n m).1 = (messageImagesData m).drop n.toNat := by
  obtain ⟨r, c⟩ := m
  cases c with
  | str s => simp [filterMessage, messageImagesData]
  | blocks l =>
    simp only [filterMessage, messageImagesData]
    exact filterFragments_images n l

lemma filterMessage_erase (n : Int) (m : Message) :
    eraseMessage (filterMessage n m).1 = eraseMessage m := by
  obtain ⟨r, c⟩ := m
  cases c with
  | str s => rfl
  | blocks l =>
    simp only [filterMessage, eraseMessage]
    rw [filterFragments_erase]

lemma filterMessage_id_of_nonpos (n : Int) (m : Message) (h : n ≤ 0) :
    filterMessage n m = (m, n) := by
  obtain ⟨r, c⟩ := m
  cases c with
  | str s => rfl
  | blocks l => simp [filterMessage, filterFragments_id_of_nonpos n l h]

lemma filterMessages_snd (n : Int) (ms : List Message) :
    (filterMessages n ms).2 = n - ((min n.toNat (totalImages ms) : Nat) : Int) := by
  induction ms generalizing n with
  | nil => simp [filterMessages, totalImages]
  | cons m rest ih =>
    simp only [filterMessages, totalImages, List.map_cons, List.sum_cons]
    rw [ih, filterMessage_snd]
    have : totalImages rest = (rest.map messageImages).sum := rfl
    rw [← this]
    omega

lemma totalImages_eq_length (ms : List Message) :
    totalImages ms = (historyImagesData ms).length := by
  induction ms with
  | nil => rfl
  | cons m rest ih =>
    simp only [totalImages, historyImagesData, List.map_cons, List.sum_cons,
      List.flatten_cons, List.length_append]
    rw [messageImages_eq_length]
    congr 1

lemma historyImagesData_cons (m : Message) (ms : List Message) :
    historyImagesData (m :: ms) = messageImagesData m ++ historyImagesData ms := by
  simp [historyImagesData]

lemma filterMessages_images (n : Int) (ms : List Message) :
    historyImagesData (filterMessages n ms).1 = (historyImagesData ms).drop n.toNat := by
  induction ms generalizing n with
  | nil => simp [filterMessages, historyImagesData]
  | cons m rest ih =>
    simp only [filterMessages, historyImagesData_cons]
    rw [ih, filterMessage_images, List.drop_append_eq_append_drop]
    have hsnd := filterMessage_snd n m
    have hlen := messageImages_eq_length m
    have : (filterMessage n m).2.toNat = n.toNat - (messageImagesData m).length := by
      omega
    rw [this]

lemma filterMessages_erase (n : Int) (ms : List Message) :
    eraseHistoryImages (filterMessages n ms).1 = eraseHistoryImages ms := by
  induction ms generalizing n with
  | nil => rfl
  | cons m rest ih =>
    simp only [filterMessages, eraseHistoryImages, List.map_cons]
    rw [filterMessage_erase]
    have ih2 := ih (filterMessage n m).2
    simp only [eraseHistoryImages] at ih2
    rw [ih2]

lemma filterMessages_id_of_nonpos (n : Int) (ms : List Message) (h : n ≤ 0) :
    filterMessages n ms = (ms, n) := by
  induction ms with
  | nil => rfl
  | cons m rest ih => simp [filterMessages, filterMessage_id_of_nonpos n m h, ih]

lemma maybe_filter_some_eq (ms : List Message) (k c : Int) :
    _maybe_filter_to_n_most_recent_images ms (some k) c
      = (filterMessages (excessImages (totalImages ms) k c) ms).1 := rfl

lemma prune_images (ms : List Message) (k c : Int) :
    historyImagesData (_maybe_filter_to_n_most_recent_images ms (some k) c)
      = (historyImagesData ms).drop (excessImages (totalImages ms) k c).toNat := by
  rw [maybe_filter_some_eq]
  exact filterMessages_images _ ms

lemma prune_erase (ms : List Message) (k c : Int) :
    eraseHistoryImages (_maybe_filter_to_n_most_recent_images ms (some k) c)
      = eraseHistoryImages ms := by
  rw [maybe_filter_some_eq]
  exact filterMessages_erase _ ms

lemma prune_id_of_nonpos (ms : List Message) (k c : Int)
    (h : excessImages (totalImages ms) k c ≤ 0) :
    _maybe_filter_to_n_most_recent_images ms (some k) c = ms := by
  rw [maybe_filter_some_eq, filterMessages_id_of_nonpos _ ms h]

lemma prune_count (ms : List Message) (k c : Int) :
    totalImages (_maybe_filter_to_n_most_recent_images ms (some k) c)
      = totalImages ms - (excessImages (totalImages ms) k c).toNat := by
  rw [totalImages_eq_length, prune_images, List.length_drop, ← totalImages_eq_length]

lemma remaining_bounds (T : Nat) (k c : Int) (hk : 0 ≤ k) (hc : 0 < c) :
    min k (T : Int) ≤ ((T - (excessImages (T : Int) k c).toNat : Nat) : Int)
  ∧ ((T - (excessImages (T : Int) k c).toNat : Nat) : Int) ≤ k + c - 1 := by
  have hne : c ≠ 0 := by omega
  have hm0 : 0 ≤ ((T : Int) - k) % c := Int.emod_nonneg _ hne
  have hm1 : ((T : Int) - k) % c < c := Int.emod_lt_of_pos _ hc
  have hle : 0 ≤ (T : Int) - k → ((T : Int) - k) % c ≤ (T : Int) - k := by
    intro h0
    have hdiv := Int.ediv_add_emod ((T : Int) - k) c
    have hq : 0 ≤ c * (((T : Int) - k) / c) :=
      mul_nonneg (le_of_lt hc) (Int.ediv_nonneg h0 (le_of_lt hc))
    linarith
  rw [show excessImages (T : Int) k c = ((T : Int) - k) - ((T : Int) - k) % c from rfl]
  generalize ((T : Int) - k) % c = m at hm0 hm1 hle
  by_cases hcase : 0 ≤ (T : Int) - k
  · have := hle hcase
    omega
  · omega

/-- C3, corrected: for `images_to_keep = k ≥ 0` and `min_removal_chunk =
c ≥ 1`, one pruner call leaves at least `min k total` images (not `k`: when
the history holds fewer than `k` images, nothing can be retained beyond what
is there, and the pruner removes nothing) and at most `k + c - 1` images. -/
theorem claim_C3_prune_bounds (ms : List Message) (k c : Int) (hk : 0 ≤ k) (hc : 0 < c) :
    min k ((totalImages ms : Nat) : Int)
      ≤ ((totalImages (_maybe_filter_to_n_most_recent_images ms (some k) c) : Nat) : Int)
  ∧ ((totalImages (_maybe_filter_to_n_most_recent_images ms (some k) c) : Nat) : Int)
      ≤ k + c - 1 := by
  rw [prune_count ms k c]
  exact remaining_bounds (totalImages ms) k c hk hc

/-- C3 witness: the 25-image history pruned with `k = 5`, `c = 10` keeps
between `min 5 25 = 5` and `14` images. -/
theorem claim_C3_prune_bounds_witness :
    min (5 : Int) ((totalImages (List.replicate 25 oneImageMessage) : Nat) : Int)
      ≤ ((totalImages (_maybe_filter_to_n_most_recent_images
          (List.replicate 25 oneImageMessage) (some 5) 10) : Nat) : Int)
  ∧ ((totalImages (_maybe_filter_to_n_most_recent_images
        (List.replicate 25 oneImageMessage) (some 5) 10) : Nat) : Int)
      ≤ 5 + 10 - 1 :=
  claim_C3_prune_bounds (List.replicate 25 oneImageMessage) 5 10 (by decide) (by decide)

/-- C3 counterexample: a history with three images pruned with
`images_to_keep = 5`, `min_removal_chunk = 10` keeps three images, fewer
than the claimed lower bound `k = 5`. -/
theorem claim_C3_counterexample :
    ¬ ((5 : Int) ≤ ((totalImages (_maybe_filter_to_n_most_recent_images
        threeImageHistory (some 5) 10) : Nat) : Int)) := by
  decide

/-- C4: for `min_removal_chunk = c ≥ 1`, one pruner call deletes exactly the
first `excess` images in chronological order, where `excess` is
`total_images - images_to_keep` rounded down to a multiple of `c` (clamped
at zero by `toNat`): the surviving image sequence is the original one with
its first `excess` entries dropped; the history with images erased is
unchanged (so only images inside `tool_result` blocks are deleted, sibling
text blocks survive, and no fragment is reordered or added); and when
`excess ≤ 0` the history is returned unchanged. -/
theorem claim_C4_prune_frame (ms : List Message) (k c : Int) (hc : 0 < c) :
    historyImagesData (_maybe_filter_to_n_most_recent_images ms (some k) c)
      = (historyImagesData ms).drop (excessImages (totalImages ms) k c).toNat
  ∧ eraseHistoryImages (_maybe_filter_to_n_most_recent_images ms (some k) c)
      = eraseHistoryImages ms
  ∧ (excessImages (totalImages ms) k c ≤ 0 →
      _maybe_filter_to_n_most_recent_images ms (some k) c = ms) :=
  ⟨prune_images ms k c, prune_erase ms k c, prune_id_of_nonpos ms k c⟩

/-- C4 witness: the spec scenario of 25 single-image `tool_result`s with
`images_to_keep = 5` and `min_removal_chunk = 10`: the first 20 images are
removed chronologically and everything else is intact. -/
theorem claim_C4_prune_frame_witness :
    historyImagesData (_maybe_filter_to_n_most_recent_images
        (List.replicate 25 oneImageMessage) (some 5) 10)
      = (historyImagesData (List.replicate 25 oneImageMessage)).drop 20
  ∧ eraseHistoryImages (_maybe_filter_to_n_most_recent_images
        (List.replicate 25 oneImageMessage) (some 5) 10)
      = eraseHistoryImages (List.replicate 25 oneImageMessage) := by
  have h := claim_C4_prune_frame (List.replicate 25 oneImageMessage) 5 10 (by decide)
  refine ⟨?_, h.2.1⟩
  have h20 : (excessImages (totalImages (List.replicate 25 oneImageMessage)) 5 10).toNat = 20 := by
    decide
  rw [h.1, h20]

/-! ### Loop lemmas -/

lemma make_api_tool_result_shape (res : ToolResult) (i : String) :
    ∃ c e, _make_api_tool_result res i = Fragment.toolResult i c e := by
  unfold _make_api_tool_result
  by_cases h : truthy res.error
  · rw [if_pos h]
    exact ⟨_, _, rfl⟩
  · rw [if_neg h]
    exact ⟨_, _, rfl⟩

lemma roundToolResults_cons_toolUse (rt : String → String → ToolResult)
    (id name input : String) (rest : List Fragment) :
    roundToolResults rt (Fragment.toolUse id name input :: rest)
      = _make_api_tool_result (rt name input) id :: roundToolResults rt rest := rfl

lemma roundToolResults_cons_other (rt : String → String → ToolResult)
    (f : Fragment) (rest : List Fragment) (h : isToolUseFrag f = false) :
    roundToolResults rt (f :: rest) = roundToolResults rt rest := by
  cases f with
  | toolUse i nm inp => simp [isToolUseFrag] at h
  | text t => rfl
  | image d => rfl
  | toolResult a b c => rfl

lemma requestIds_cons_toolUse (id name input : String) (rest : List Fragment) :
    requestIds (Fragment.toolUse id name input :: rest) = id :: requestIds rest := rfl

lemma requestIds_cons_other (f : Fragment) (rest : List Fragment)
    (h : isToolUseFrag f = false) :
    requestIds (f :: rest) = requestIds rest := by
  cases f with
  | toolUse i nm inp => simp [isToolUseFrag] at h
  | text t => rfl
  | image d => rfl
  | toolResult a b c => rfl

lemma resultIds_cons_toolResult (id : String) (c : TRContent) (e : Bool)
    (rest : List Fragment) :
    resultIds (Fragment.toolResult id c e :: rest) = id :: resultIds rest := rfl

lemma resultIds_roundToolResults (rt : String → String → ToolResult) (r : List Fragment) :
    resultIds (roundToolResults rt r) = requestIds r := by
  induction r with
  | nil => rfl
  | cons f rest ih =>
    cases f with
    | toolUse id name input =>
      rw [roundToolResults_cons_toolUse, requestIds_cons_toolUse]
      obtain ⟨c, e, hc⟩ := make_api_tool_result_shape (rt name input) id
      rw [hc, resultIds_cons_toolResult, ih]
    | text t =>
      rw [roundToolResults_cons_other rt (Fragment.text t) rest rfl,
        requestIds_cons_other (Fragment.text t) rest rfl, ih]
    | image d =>
      rw [roundToolResults_cons_other rt (Fragment.image d) rest rfl,
        requestIds_cons_other (Fragment.image d) rest rfl, ih]
    | toolResult a b c =>
      rw [roundToolResults_cons_other rt (Fragment.toolResult a b c) rest rfl,
        requestIds_cons_other (Fragment.toolResult a b c) rest rfl, ih]

lemma roundToolResults_eq_nil_iff (rt : String → String → ToolResult) (r : List Fragment) :
    roundToolResults rt r = [] ↔ requestIds r = [] := by
  induction r with
  | nil => simp [roundToolResults, requestIds]
  | cons f rest ih =>
    cases f with
    | toolUse id name input =>
      rw [roundToolResults_cons_toolUse, requestIds_cons_toolUse]
      simp
    | text t =>
      rw [roundToolResults_cons_other rt (Fragment.text t) rest rfl,
        requestIds_cons_other (Fragment.text t) rest rfl]
      exact ih
    | image d =>
      rw [roundToolResults_cons_other rt (Fragment.image d) rest rfl,
        requestIds_cons_other (Fragment.image d) rest rfl]
      exact ih
    | toolResult a b c =>
      rw [roundToolResults_cons_other rt (Fragment.toolResult a b c) rest rfl,
        requestIds_cons_other (Fragment.toolResult a b c) rest rfl]
      exact ih

lemma roundToolResults_all_results (rt : String → String → ToolResult) (r : List Fragment) :
    ∀ f ∈ roundToolResults rt r, isToolResultFrag f = true := by
  induction r with
  | nil => intro f hf; simp [roundToolResults] at hf
  | cons g rest ih =>
    cases g with
    | toolUse id name input =>
      rw [roundToolResults_cons_toolUse]
      intro f hf
      rcases List.mem_cons.mp hf with h | h
      · obtain ⟨c, e, hc⟩ := make_api_tool_result_shape (rt name input) id
        rw [h, hc]
        rfl
      · exact ih f h
    | text t => rw [roundToolResults_cons_other rt (Fragment.text t) rest rfl]; exact ih
    | image d => rw [roundToolResults_cons_other rt (Fragment.image d) rest rfl]; exact ih
    | toolResult a b c =>
      rw [roundToolResults_cons_other rt (Fragment.toolResult a b c) rest rfl]
      exact ih

lemma sampling_loop_cons_no_tools (rt : String → String → ToolResult)
    (lim : Option Int) (r : List Fragment) (rest : List (List Fragment))
    (msgs : List Message) (h : roundToolResults rt r = []) :
    sampling_loop rt lim (r :: rest) msgs
      = some (pruneGuard lim msgs ++ [mkAssistantMessage r]) := by
  simp only [sampling_loop]
  rw [if_pos h]

lemma sampling_loop_cons_tools (rt : String → String → ToolResult)
    (lim : Option Int) (r : List Fragment) (rest : List (List Fragment))
    (msgs : List Message) (h : roundToolResults rt r ≠ []) :
    sampling_loop rt lim (r :: rest) msgs
      = sampling_loop rt lim rest
          (pruneGuard lim msgs ++
            [mkAssistantMessage r, mkUserMessage (roundToolResults rt r)]) := by
  simp only [sampling_loop]
  rw [if_neg h, List.append_assoc]
  rfl

/-- C1: in every round, the `tool_result` block list built for the reply
carries exactly the `tool_use` ids of the reply, one result per request, in
request order (so no request is unanswered and no orphaned result exists);
every block of that list is a `tool_result`; and when the reply holds at
least one request, the loop appends that list as the user message
immediately following the appended assistant message before the next round. -/
theorem claim_C1_results_match_requests (rt : String → String → ToolResult)
    (lim : Option Int) (r : List Fragment) (rest : List (List Fragment))
    (msgs : List Message) :
    resultIds (roundToolResults rt r) = requestIds r
  ∧ (∀ f ∈ roundToolResults rt r, isToolResultFrag f = true)
  ∧ (requestIds r ≠ [] →
      sampling_loop rt lim (r :: rest) msgs
        = sampling_loop rt lim rest
            (pruneGuard lim msgs ++
              [mkAssistantMessage r, mkUserMessage (roundToolResults rt r)])) := by
  refine ⟨resultIds_roundToolResults rt r, roundToolResults_all_results rt r, fun h => ?_⟩
  apply sampling_loop_cons_tools
  intro hnil
  exact h ((roundToolResults_eq_nil_iff rt r).mp hnil)

/-- C1 witness: one round with a single `tool_use` request. -/
theorem claim_C1_results_match_requests_witness :
    resultIds (roundToolResults rtOkay [Fragment.toolUse "a" "bash" ""])
      = requestIds [Fragment.toolUse "a" "bash" ""]
  ∧ sampling_loop rtOkay none [[Fragment.toolUse "a" "bash" ""]] []
      = sampling_loop rtOkay none []
          ([mkAssistantMessage [Fragment.toolUse "a" "bash" ""],
            mkUserMessage (roundToolResults rtOkay [Fragment.toolUse "a" "bash" ""])]) := by
  have h := claim_C1_results_match_requests rtOkay none
    [Fragment.toolUse "a" "bash" ""] [] []
  exact ⟨h.1, h.2.2 (by decide)⟩

/-- C2: a round terminates the loop exactly when the reply holds zero
`tool_use` blocks (the built result list is empty iff there are zero
requests); in that case the returned history is the pruned history plus the
assistant message only, independent of any further scripted provider
replies (no further provider call happens); otherwise the loop continues
with the appended assistant and user messages. -/
theorem claim_C2_termination (rt : String → String → ToolResult)
    (lim : Option Int) (r : List Fragment) (rest : List (List Fragment))
    (msgs : List Message) :
    (roundToolResults rt r = [] ↔ requestIds r = [])
  ∧ (requestIds r = [] →
      sampling_loop rt lim (r :: rest) msgs
        = some (pruneGuard lim msgs ++ [mkAssistantMessage r]))
  ∧ (requestIds r ≠ [] →
      sampling_loop rt lim (r :: rest) msgs
        = sampling_loop rt lim rest
            (pruneGuard lim msgs ++
              [mkAssistantMessage r, mkUserMessage (roundToolResults rt r)])) := by
  refine ⟨roundToolResults_eq_nil_iff rt r, fun h => ?_, fun h => ?_⟩
  · exact sampling_loop_cons_no_tools rt lim r rest msgs
      ((roundToolResults_eq_nil_iff rt r).mpr h)
  · apply sampling_loop_cons_tools
    intro hnil
    exact h ((roundToolResults_eq_nil_iff rt r).mp hnil)

/-- C2 witness: a text-only reply ends the loop with just the assistant
message appended, ignoring a further scripted reply. -/
theorem claim_C2_termination_witness :
    sampling_loop rtOkay none [[Fragment.text "done"], [Fragment.text "unused"]] []
      = some [mkAssistantMessage [Fragment.text "done"]] :=
  (claim_C2_termination rtOkay none [Fragment.text "done"]
    [[Fragment.text "unused"]] []).2.1 (by decide)

/-- C5: a tool outcome carrying a (nonempty) error text is converted to a
`tool_result` block with `is_error = true` and the originating request id,
whose shown text is the error text (run through the system-annotation and
truncation policy; it is exactly the error text when no annotation is set
and the text is within the 4000-character bound), and a round whose reply
requested that tool appends the result and issues another round instead of
terminating. -/
theorem claim_C5_error_result (rt : String → String → ToolResult)
    (lim : Option Int) (rest : List (List Fragment)) (msgs : List Message)
    (id name input e : String)
    (he : (rt name input).error = some e) (hne : e ≠ "") :
    _make_api_tool_result (rt name input) id
      = Fragment.toolResult id
          (TRContent.str (_maybe_prepend_system_tool_result (rt name input) e)) true
  ∧ ((rt name input).system = none → e.length ≤ 4000 →
      _make_api_tool_result (rt name input) id
        = Fragment.toolResult id (TRContent.str e) true)
  ∧ sampling_loop rt lim ([Fragment.toolUse id name input] :: rest) msgs
      = sampling_loop rt lim rest
          (pruneGuard lim msgs ++
            [mkAssistantMessage [Fragment.toolUse id name input],
             mkUserMessage [_make_api_tool_result (rt name input) id]]) := by
  have ht : truthy (rt name input).error = true := by
    rw [he]
    simpa [truthy] using hne
  have h1 : _make_api_tool_result (rt name input) id
      = Fragment.toolResult id
          (TRContent.str (_maybe_prepend_system_tool_result (rt name input) e)) true := by
    unfold _make_api_tool_result
    rw [if_pos ht, he]
    rfl
  refine ⟨h1, fun hsys hlen => ?_, ?_⟩
  · rw [h1]
    have hsys2 : truthy (rt name input).system = false := by rw [hsys]; rfl
    unfold _maybe_prepend_system_tool_result
    rw [hsys2]
    simp only [Bool.false_eq_true, if_false]
    unfold truncate_string
    rw [if_pos hlen]
  · have hr : roundToolResults rt [Fragment.toolUse id name input]
        = [_make_api_tool_result (rt name input) id] := rfl
    have := sampling_loop_cons_tools rt lim [Fragment.toolUse id name input] rest msgs
      (by rw [hr]; exact List.cons_ne_nil _ _)
    rw [this, hr]

/-- C5 witness: the spec scenario: request id `a`, tool `screenshot`, error
text `display not found`. -/
theorem claim_C5_error_result_witness :
    _make_api_tool_result (rtFailing "screenshot" "") "a"
      = Fragment.toolResult "a" (TRContent.str "display not found") true
  ∧ sampling_loop rtFailing none [[Fragment.toolUse "a" "screenshot" ""]] []
      = sampling_loop rtFailing none []
          ([mkAssistantMessage [Fragment.toolUse "a" "screenshot" ""],
            mkUserMessage [_make_api_tool_result (rtFailing "screenshot" "") "a"]]) := by
  have h := claim_C5_error_result rtFailing none [] [] "a" "screenshot" ""
    "display not found" rfl (by decide)
  exact ⟨h.2.1 rfl (by decide), h.2.2⟩

/-- C10: an image retention limit of the integer `0` is falsy in the loop
guard, so no pruning happens at all and the loop behaves exactly as with
the limit unset (`None`). -/
theorem claim_C10_zero_limit_no_pruning (rt : String → String → ToolResult)
    (replies : List (List Fragment)) (msgs : List Message) :
    pruneGuard (some 0) msgs = msgs
  ∧ pruneGuard none msgs = msgs
  ∧ sampling_loop rt (some 0) replies msgs = sampling_loop rt none replies msgs := by
  refine ⟨rfl, rfl, ?_⟩
  induction replies generalizing msgs with
  | nil => rfl
  | cons r rest ih =>
    simp only [sampling_loop]
    rw [show pruneGuard (some 0) msgs = msgs from rfl,
      show pruneGuard none msgs = msgs from rfl]
    by_cases h : roundToolResults rt r = []
    · rw [if_pos h, if_pos h]
    · rw [if_neg h, if_neg h, ih]

/-! ### Adapter claims -/

/-- C6: the outbound (Venice) translation: a nonempty system prompt becomes
a distinguished leading wire message with role `system`, and every history
message maps to one wire message of the same role whose content is the
in-order concatenation of its `text` fragment contents; `image`,
`tool_use`, and `tool_result` fragments are discarded by the flattening. -/
theorem claim_C6_outbound_translation (msgs : List Message) (system : String)
    (hs : system ≠ "") :
    _convert_messages msgs system
      = (⟨"system", system⟩ : VeniceMessage) ::
          msgs.map (fun m => ⟨roleString m.role, _extract_text_from_content m.content⟩)
  ∧ (∀ t l, _extract_text_from_content (MsgContent.blocks (Fragment.text t :: l))
      = t ++ _extract_text_from_content (MsgContent.blocks l))
  ∧ (∀ d l, _extract_text_from_content (MsgContent.blocks (Fragment.image d :: l))
      = _extract_text_from_content (MsgContent.blocks l))
  ∧ (∀ id name input l,
      _extract_text_from_content (MsgContent.blocks (Fragment.toolUse id name input :: l))
        = _extract_text_from_content (MsgContent.blocks l))
  ∧ (∀ id c e l,
      _extract_text_from_content (MsgContent.blocks (Fragment.toolResult id c e :: l))
        = _extract_text_from_content (MsgContent.blocks l))
  ∧ _extract_text_from_content (MsgContent.blocks []) = "" := by
  refine ⟨?_, fun t l => rfl, fun d l => rfl, fun id name input l => rfl,
    fun id c e l => rfl, rfl⟩
  unfold _convert_messages
  rw [if_neg hs]
  rfl

/-- C6 witness: one user message holding text, an image, and more text
flattens to the concatenated text behind the leading system message. -/
theorem claim_C6_outbound_translation_witness :
    _convert_messages
        [⟨Role.user, MsgContent.blocks
          [Fragment.text "hi", Fragment.image "z", Fragment.text "yo"]⟩] "sys"
      = [⟨"system", "sys"⟩, ⟨"user", "hiyo"⟩] := by
  have h := claim_C6_outbound_translation
    [⟨Role.user, MsgContent.blocks
      [Fragment.text "hi", Fragment.image "z", Fragment.text "yo"]⟩] "sys" (by decide)
  rw [h.1]
  decide

/-- C7: the inbound (Venice) translation: whenever extracting the reply
string succeeds, the adapter produces a message whose content is exactly
one text fragment holding that string, whose id is the freshly generated
id (the backend id field of the payload is ignored, so never reused), and
which contains no `tool_use` and no `tool_result` fragment. -/
theorem claim_C7_inbound_translation (p : VenicePayload) (freshId model s : String)
    (h : assistantContentOf p = Except.ok s) :
    _convert_response p freshId model
      = Except.ok ⟨freshId, "message", "assistant", [Fragment.text s], model,
          usageOf p, some "end_turn"⟩
  ∧ (∀ pid : Option String,
      _convert_response ⟨pid, p.choices, p.usage⟩ freshId model
        = _convert_response p freshId model)
  ∧ requestIds [Fragment.text s] = []
  ∧ resultIds [Fragment.text s] = [] := by
  refine ⟨?_, fun pid => ?_, rfl, rfl⟩
  · unfold _convert_response
    rw [h]
  · obtain ⟨pid0, ch, u⟩ := p
    rfl

/-- C7 witness: a payload with a backend id and one choice translates to a
single text fragment under the fresh id. -/
theorem claim_C7_inbound_translation_witness :
    _convert_response ⟨some "venice-123", some [⟨some ⟨some "hello"⟩⟩], none⟩ "fresh" "m"
      = Except.ok ⟨"fresh", "message", "assistant", [Fragment.text "hello"], "m",
          ⟨0, 0⟩, some "end_turn"⟩
  ∧ requestIds [Fragment.text "hello"] = [] :=
  ⟨(claim_C7_inbound_translation
      ⟨some "venice-123", some [⟨some ⟨some "hello"⟩⟩], none⟩ "fresh" "m" "hello" rfl).1,
   (claim_C7_inbound_translation
      ⟨some "venice-123", some [⟨some ⟨some "hello"⟩⟩], none⟩ "fresh" "m" "hello" rfl).2.2.1⟩

/-- C8, corrected: network failures and HTTP 4xx/5xx statuses surface as the
single wrapped `RuntimeError` with a human-readable cause; but a response
whose payload merely lacks expected keys does not raise at all (it yields a
reply with empty text), a payload with a present but empty `choices` list
raises an unwrapped `IndexError`, and an unparseable body raises an
unwrapped JSON decode error (both outside the `try` block), so malformed
responses can crash the adapter with an exception that is not the provider
error. -/
theorem claim_C8_error_channels (m : String) (status : Nat) (body : Option VenicePayload)
    (freshId model : String) :
    create (NetResult.netFailure m) freshId model
      = Except.error (PyExc.runtimeError ("Venice API request failed: " ++ m))
  ∧ (400 ≤ status → status < 600 →
      create (NetResult.httpResponse status body) freshId model
        = Except.error (PyExc.runtimeError
            ("Venice API request failed: " ++ ("HTTP error " ++ toString status))))
  ∧ (status < 400 →
      create (NetResult.httpResponse status (some ⟨none, none, none⟩)) freshId model
        = Except.ok ⟨freshId, "message", "assistant", [Fragment.text ""], model,
            ⟨0, 0⟩, some "end_turn"⟩)
  ∧ (status < 400 →
      create (NetResult.httpResponse status (some ⟨none, some [], none⟩)) freshId model
        = Except.error PyExc.indexError)
  ∧ (status < 400 →
      create (NetResult.httpResponse status none) freshId model
        = Except.error PyExc.jsonDecodeError) := by
  refine ⟨rfl, fun h1 h2 => ?_, fun h => ?_, fun h => ?_, fun h => ?_⟩
  · simp only [create]
    rw [show raise_for_status status = some ("HTTP error " ++ toString status) from by
      unfold raise_for_status; rw [if_pos ⟨h1, h2⟩]]
  · simp only [create]
    rw [show raise_for_status status = none from by
      unfold raise_for_status; rw [if_neg (by omega)]]
    rfl
  · simp only [create]
    rw [show raise_for_status status = none from by
      unfold raise_for_status; rw [if_neg (by omega)]]
    rfl
  · simp only [create]
    rw [show raise_for_status status = none from by
      unfold raise_for_status; rw [if_neg (by omega)]]

/-- C8 witness: a network failure and a 500 status are wrapped, and an
unparseable 200 body raises the unwrapped decode error. -/
theorem claim_C8_error_channels_witness :
    create (NetResult.netFailure "connection refused") "f" "m"
      = Except.error (PyExc.runtimeError
          ("Venice API request failed: " ++ "connection refused"))
  ∧ create (NetResult.httpResponse 500 none) "f" "m"
      = Except.error (PyExc.runtimeError
          ("Venice API request failed: " ++ ("HTTP error " ++ toString (500 : Nat))))
  ∧ create (NetResult.httpResponse 200 none) "f" "m"
      = Except.error PyExc.jsonDecodeError := by
  have h5 := claim_C8_error_channels "connection refused" 500 none "f" "m"
  have h2 := claim_C8_error_channels "connection refused" 200 none "f" "m"
  exact ⟨h5.1, h5.2.1 (by decide) (by decide), h2.2.2.2.2 (by decide)⟩

/-- C8 counterexample: a well-formed HTTP 200 response whose JSON payload
has an empty `choices` list makes the adapter raise `IndexError`, which is
not the wrapped provider error — the adapter does crash on a malformed
response. -/
theorem claim_C8_counterexample :
    create (NetResult.httpResponse 200 (some ⟨none, some [], none⟩)) "id0" "model0"
      = Except.error PyExc.indexError
  ∧ isProviderError PyExc.indexError = false :=
  ⟨rfl, rfl⟩

/-- C9: text surfaced through the truncation policy is passed through
unchanged when its length is at most 4000 characters, and longer text is
cut to its first 4000 characters with the visible marker appended; the
tool-result text path `_maybe_prepend_system_tool_result` is exactly this
truncation when no system annotation is present. -/
theorem claim_C9_truncation (s : String) :
    (s.length ≤ 4000 → truncate_string s 4000 = s)
  ∧ (4000 < s.length →
      truncate_string s 4000 = s.take 4000 ++ "... [truncated]")
  ∧ (∀ res : ToolResult, truthy res.system = false →
      _maybe_prepend_system_tool_result res s = truncate_string s 4000) := by
  refine ⟨fun h => ?_, fun h => ?_, fun res hres => ?_⟩
  · unfold truncate_string
    rw [if_pos h]
  · unfold truncate_string
    rw [if_neg (by omega)]
  · unfold _maybe_prepend_system_tool_result
    rw [hres]
    simp

/-- C9 witness: a 5000-character string is cut to 4000 characters plus the
marker; a short string passes through unchanged. -/
theorem claim_C9_truncation_witness :
    truncate_string "short" 4000 = "short"
  ∧ truncate_string fiveThousandChars 4000
      = fiveThousandChars.take 4000 ++ "... [truncated]" := by
  refine ⟨(claim_C9_truncation "short").1 (by decide),
    (claim_C9_truncation fiveThousandChars).2.1 ?_⟩
  show 4000 < fiveThousandChars.length
  rw [show fiveThousandChars.length = (List.replicate 5000 (Char.ofNat 97)).length from rfl,
    List.length_replicate]
  omega

end ComputerUse
